import Mathlib

set_option maxHeartbeats 1000000

/-!
Shallow embedding of the regex AST model and canonical formatter from
`src/syntax/ast.go` and `src/syntax/operation.go`.

Conventions of the embedding:
* Go's `type Operation byte` is embedded as `Nat`; the named constants
  below carry the numeric values produced by the `iota` block of
  `src/syntax/operation.go` (the taxonomy file, which includes
  `OpPossessive`).  `ast.go` also carries a stale copy of the constant
  block without `OpPossessive`; the dedicated taxonomy file is taken as
  authoritative, and the formatter dispatches on the named constants, so
  only the presence of `OpPossessive` (absent from every `case`) matters.
* Go's `uint16` offsets are embedded as `Nat` (the 16-bit width only caps
  the pattern length and plays no role in the formatting logic).
* Fallible operations (string slicing out of range, indexing `Args`
  beyond its length) are embedded with `Option`: `none` models a Go
  panic, `some s` models normal return of `s`.
-/

/-- Go: `type Operation byte` (`src/syntax/ast.go`). -/
abbrev Operation := Nat

@[simp] def OpNone : Operation := 0
@[simp] def OpConcat : Operation := 1
@[simp] def OpDot : Operation := 2
@[simp] def OpAlt : Operation := 3
@[simp] def OpStar : Operation := 4
@[simp] def OpPlus : Operation := 5
@[simp] def OpQuestion : Operation := 6
@[simp] def OpNonGreedy : Operation := 7
@[simp] def OpPossessive : Operation := 8
@[simp] def OpCaret : Operation := 9
@[simp] def OpDollar : Operation := 10
@[simp] def OpLiteral : Operation := 11
@[simp] def OpChar : Operation := 12
@[simp] def OpString : Operation := 13
@[simp] def OpQuote : Operation := 14
@[simp] def OpEscape : Operation := 15
@[simp] def OpEscapeMeta : Operation := 16
@[simp] def OpEscapeOctal : Operation := 17
@[simp] def OpEscapeHex : Operation := 18
@[simp] def OpEscapeHexFull : Operation := 19
@[simp] def OpEscapeUni : Operation := 20
@[simp] def OpEscapeUniFull : Operation := 21
@[simp] def OpCharClass : Operation := 22
@[simp] def OpNegCharClass : Operation := 23
@[simp] def OpCharRange : Operation := 24
@[simp] def OpPosixClass : Operation := 25
@[simp] def OpRepeat : Operation := 26
@[simp] def OpCapture : Operation := 27
@[simp] def OpNamedCapture : Operation := 28
@[simp] def OpGroup : Operation := 29
@[simp] def OpGroupWithFlags : Operation := 30
@[simp] def OpFlagOnlyGroup : Operation := 31
@[simp] def OpNone2 : Operation := 32

/-- Modelled from the spec: `Position` is `{Begin, End}`, unsigned offsets
into the original pattern text (the Go definition lives in a file of this
repository that is not under `src/`; `ast.go` only uses its two fields). -/
structure Position where
  Begin : Nat
  End : Nat

/-- Go: `type Expr struct { Pos Position; Op Operation; Args []Expr }`. -/
inductive Expr where
  | mk (pos : Position) (op : Operation) (args : List Expr)

def Expr.Pos : Expr → Position
  | .mk pos _ _ => pos

def Expr.Op : Expr → Operation
  | .mk _ op _ => op

def Expr.Args : Expr → List Expr
  | .mk _ _ args => args

/-- Go: `func (e Expr) Begin() uint16 { return e.Pos.Begin }`. -/
def Expr.Begin (e : Expr) : Nat := e.Pos.Begin

/-- Go: `func (e Expr) End() uint16 { return e.Pos.End }`. -/
def Expr.End (e : Expr) : Nat := e.Pos.End

/-- Go: `func (e Expr) LastArg() Expr { return e.Args[len(e.Args)-1] }`.
The index `len(e.Args)-1` is out of bounds when `Args` is empty, a panic
in Go, modelled by `none` (note `0 - 1 = 0` in `Nat`, and indexing the
empty list at 0 yields `none` just the same). -/
def Expr.LastArg (e : Expr) : Option Expr := e.Args[e.Args.length - 1]?

abbrev ExprT := Expr

/-- Go: `type Regexp struct { Source string; Expr Expr }`. -/
structure Regexp where
  Source : String
  Expr : ExprT

/-- Go string slicing `s[b:e]`: defined (the substring) when
`b ≤ e ≤ len(s)`, a panic (here `none`) otherwise. -/
def sliceString (s : String) (b e : Nat) : Option String :=
  if b ≤ e ∧ e ≤ s.length then
    some (((s.toList.drop b).take (e - b)).asString)
  else
    none

/-- Go: `func (re *Regexp) ExprString(e Expr) string
{ return re.Source[e.Begin():e.End()] }`. -/
def Regexp.ExprString (re : Regexp) (e : ExprT) : Option String :=
  sliceString re.Source e.Begin e.End

mutual

/-- Go: `formatExprSyntax` (`src/syntax/ast.go`), the per-node dispatch of
the canonical formatter.  The `if`-chain mirrors the Go `switch e.Op`
(the cases are mutually exclusive constants, so the chain order is
irrelevant); `e.Args[0]` / `e.Args[1]` accesses are mirrored by matching
the first one or two list cells, with `none` for the Go index panic, and
`Option.bind` / `Option.map` propagate a panic (`none`) from a slice or a
recursive call. -/
def formatExprSyntax (re : Regexp) (e : Expr) : Option String :=
  match e with
  | .mk pos op args =>
    if op = OpChar ∨ op = OpLiteral then
      (re.ExprString (Expr.mk pos op args)).map fun s =>
        if s = "\x7b" then "'\x7b'" else if s = "\x7d" then "'\x7d'" else s
    else if op = OpString ∨ op = OpEscape ∨ op = OpEscapeMeta ∨ op = OpEscapeOctal ∨
        op = OpEscapeUni ∨ op = OpEscapeUniFull ∨ op = OpEscapeHex ∨
        op = OpEscapeHexFull ∨ op = OpPosixClass then
      re.ExprString (Expr.mk pos op args)
    else if op = OpRepeat then
      match args with
      | a0 :: a1 :: _ =>
        (formatExprSyntax re a0).bind fun s0 => (re.ExprString a1).map fun s1 =>
          "(repeat " ++ s0 ++ " " ++ s1 ++ ")"
      | _ => none
    else if op = OpCaret then
      some "^"
    else if op = OpDollar then
      some "$"
    else if op = OpDot then
      some "."
    else if op = OpQuote then
      (re.ExprString (Expr.mk pos op args)).map fun s => "(q " ++ s ++ ")"
    else if op = OpCharRange then
      match args with
      | a0 :: a1 :: _ =>
        (formatExprSyntax re a0).bind fun s0 => (formatExprSyntax re a1).map fun s1 =>
          s0 ++ "-" ++ s1
      | _ => none
    else if op = OpCharClass then
      (formatPartsSyntax re args).map fun parts =>
        "[" ++ String.intercalate " " parts ++ "]"
    else if op = OpNegCharClass then
      (formatPartsSyntax re args).map fun parts =>
        "[^" ++ String.intercalate " " parts ++ "]"
    else if op = OpConcat then
      (formatPartsSyntax re args).map fun parts =>
        "\x7b" ++ String.intercalate " " parts ++ "\x7d"
    else if op = OpAlt then
      (formatPartsSyntax re args).map fun parts =>
        "(or " ++ String.intercalate " " parts ++ ")"
    else if op = OpCapture then
      match args with
      | a0 :: _ => (formatExprSyntax re a0).map fun s0 => "(capture " ++ s0 ++ ")"
      | _ => none
    else if op = OpNamedCapture then
      match args with
      | a0 :: a1 :: _ =>
        (formatExprSyntax re a0).bind fun s0 => (re.ExprString a1).map fun s1 =>
          "(capture " ++ s0 ++ " " ++ s1 ++ ")"
      | _ => none
    else if op = OpGroup then
      match args with
      | a0 :: _ => (formatExprSyntax re a0).map fun s0 => "(group " ++ s0 ++ ")"
      | _ => none
    else if op = OpGroupWithFlags then
      match args with
      | a0 :: a1 :: _ =>
        (formatExprSyntax re a0).bind fun s0 => (re.ExprString a1).map fun s1 =>
          "(group " ++ s0 ++ " " ++ s1 ++ ")"
      | _ => none
    else if op = OpFlagOnlyGroup then
      match args with
      | a0 :: _ => (formatExprSyntax re a0).map fun s0 => "(flags " ++ s0 ++ ")"
      | _ => none
    else if op = OpPlus then
      match args with
      | a0 :: _ => (formatExprSyntax re a0).map fun s0 => "(+ " ++ s0 ++ ")"
      | _ => none
    else if op = OpStar then
      match args with
      | a0 :: _ => (formatExprSyntax re a0).map fun s0 => "(* " ++ s0 ++ ")"
      | _ => none
    else if op = OpQuestion then
      match args with
      | a0 :: _ => (formatExprSyntax re a0).map fun s0 => "(? " ++ s0 ++ ")"
      | _ => none
    else if op = OpNonGreedy then
      match args with
      | a0 :: _ => (formatExprSyntax re a0).map fun s0 => "(non-greedy " ++ s0 ++ ")"
      | _ => none
    else
      some ("<op=" ++ toString op ++ ">")

/-- The loop body of Go's `formatArgsSyntax`:
`parts[i] = formatExprSyntax(re, args[i])`. -/
def formatPartsSyntax (re : Regexp) (args : List Expr) : Option (List String) :=
  match args with
  | [] => some []
  | a :: rest =>
    (formatExprSyntax re a).bind fun s => (formatPartsSyntax re rest).map fun ss =>
      s :: ss

end

/-- Go: `formatArgsSyntax` = collect the parts, then
`strings.Join(parts, " ")`. -/
def formatArgsSyntax (re : Regexp) (args : List Expr) : Option String :=
  (formatPartsSyntax re args).map (String.intercalate " ")

/-- Go: `func FormatSyntax(re *Regexp) string
{ return formatExprSyntax(re, re.Expr) }`. -/
def FormatSyntax (re : Regexp) : Option String :=
  formatExprSyntax re re.Expr

/-- The set of `Operation` tags that have a `case` in the `switch` of
Go's `formatExprSyntax`.  Every other tag value reaches the `default`
branch. -/
def handledOps : List Operation :=
  [OpChar, OpLiteral, OpString, OpEscape, OpEscapeMeta, OpEscapeOctal, OpEscapeUni,
   OpEscapeUniFull, OpEscapeHex, OpEscapeHexFull, OpPosixClass, OpRepeat, OpCaret,
   OpDollar, OpDot, OpQuote, OpCharRange, OpCharClass, OpNegCharClass, OpConcat,
   OpAlt, OpCapture, OpNamedCapture, OpGroup, OpGroupWithFlags, OpFlagOnlyGroup,
   OpPlus, OpStar, OpQuestion, OpNonGreedy]

/-- The documented minimum arity of each `Operation` variant: the variants
whose rendering reads `Args[1]` need at least 2 arguments, those whose
rendering reads only `Args[0]` need at least 1, and the rest accept any
number (possibly zero). -/
def minArity (op : Operation) : Nat :=
  if op = OpRepeat ∨ op = OpCharRange ∨ op = OpNamedCapture ∨ op = OpGroupWithFlags then 2
  else if op = OpStar ∨ op = OpPlus ∨ op = OpQuestion ∨ op = OpNonGreedy ∨
      op = OpCapture ∨ op = OpGroup ∨ op = OpFlagOnlyGroup then 1
  else 0

mutual

/-- Every node of the tree has a span with `Begin ≤ End ≤ length Source`. -/
def spanChk (re : Regexp) : Expr → Bool
  | .mk pos _ args =>
    (decide (pos.Begin ≤ pos.End) && decide (pos.End ≤ re.Source.length)) &&
      spanChkList re args

def spanChkList (re : Regexp) : List Expr → Bool
  | [] => true
  | a :: rest => spanChk re a && spanChkList re rest

end

mutual

/-- Every node of the tree has at least `minArity` arguments. -/
def arityChk : Expr → Bool
  | .mk _ op args => decide (minArity op ≤ args.length) && arityChkList args

def arityChkList : List Expr → Bool
  | [] => true
  | a :: rest => arityChk a && arityChkList rest

end

/-- A well-formed `Regexp`: every node's span lies inside the source and
every node meets its variant's minimum arity. -/
def wfChk (re : Regexp) : Bool :=
  spanChk re re.Expr && arityChk re.Expr

/-- The "shape plus leaf text" abstraction of a tree over its source: the
`Operation` tag, the extracted source text of the node, and the same
recursively for the arguments.  Two trees with equal skeletons are
structurally identical in the sense of the spec's round-trip property. -/
inductive STree where
  | node (op : Operation) (text : Option String) (args : List STree)

def STree.op : STree → Operation
  | .node op _ _ => op

def STree.text : STree → Option String
  | .node _ text _ => text

def STree.args : STree → List STree
  | .node _ _ args => args

mutual

/-- The skeleton (shape plus extracted text) of a node over its source. -/
def skel (re : Regexp) : Expr → STree
  | .mk pos op args => .node op (re.ExprString (Expr.mk pos op args)) (skelList re args)

def skelList (re : Regexp) : List Expr → List STree
  | [] => []
  | a :: rest => skel re a :: skelList re rest

end

mutual

/-- `formatExprSyntax` transcribed to run on a skeleton: the same dispatch
with the stored extracted text in place of source slicing.
`format_eq_formatSkel` below proves the transcription faithful. -/
def formatSkel : STree → Option String
  | .node op t args =>
    if op = OpChar ∨ op = OpLiteral then
      t.map fun s => if s = "\x7b" then "'\x7b'" else if s = "\x7d" then "'\x7d'" else s
    else if op = OpString ∨ op = OpEscape ∨ op = OpEscapeMeta ∨ op = OpEscapeOctal ∨
        op = OpEscapeUni ∨ op = OpEscapeUniFull ∨ op = OpEscapeHex ∨
        op = OpEscapeHexFull ∨ op = OpPosixClass then
      t
    else if op = OpRepeat then
      match args with
      | a0 :: a1 :: _ =>
        (formatSkel a0).bind fun s0 => a1.text.map fun s1 =>
          "(repeat " ++ s0 ++ " " ++ s1 ++ ")"
      | _ => none
    else if op = OpCaret then
      some "^"
    else if op = OpDollar then
      some "$"
    else if op = OpDot then
      some "."
    else if op = OpQuote then
      t.map fun s => "(q " ++ s ++ ")"
    else if op = OpCharRange then
      match args with
      | a0 :: a1 :: _ =>
        (formatSkel a0).bind fun s0 => (formatSkel a1).map fun s1 => s0 ++ "-" ++ s1
      | _ => none
    else if op = OpCharClass then
      (formatSkelParts args).map fun parts =>
        "[" ++ String.intercalate " " parts ++ "]"
    else if op = OpNegCharClass then
      (formatSkelParts args).map fun parts =>
        "[^" ++ String.intercalate " " parts ++ "]"
    else if op = OpConcat then
      (formatSkelParts args).map fun parts =>
        "\x7b" ++ String.intercalate " " parts ++ "\x7d"
    else if op = OpAlt then
      (formatSkelParts args).map fun parts =>
        "(or " ++ String.intercalate " " parts ++ ")"
    else if op = OpCapture then
      match args with
      | a0 :: _ => (formatSkel a0).map fun s0 => "(capture " ++ s0 ++ ")"
      | _ => none
    else if op = OpNamedCapture then
      match args with
      | a0 :: a1 :: _ =>
        (formatSkel a0).bind fun s0 => a1.text.map fun s1 =>
          "(capture " ++ s0 ++ " " ++ s1 ++ ")"
      | _ => none
    else if op = OpGroup then
      match args with
      | a0 :: _ => (formatSkel a0).map fun s0 => "(group " ++ s0 ++ ")"
      | _ => none
    else if op = OpGroupWithFlags then
      match args with
      | a0 :: a1 :: _ =>
        (formatSkel a0).bind fun s0 => a1.text.map fun s1 =>
          "(group " ++ s0 ++ " " ++ s1 ++ ")"
      | _ => none
    else if op = OpFlagOnlyGroup then
      match args with
      | a0 :: _ => (formatSkel a0).map fun s0 => "(flags " ++ s0 ++ ")"
      | _ => none
    else if op = OpPlus then
      match args with
      | a0 :: _ => (formatSkel a0).map fun s0 => "(+ " ++ s0 ++ ")"
      | _ => none
    else if op = OpStar then
      match args with
      | a0 :: _ => (formatSkel a0).map fun s0 => "(* " ++ s0 ++ ")"
      | _ => none
    else if op = OpQuestion then
      match args with
      | a0 :: _ => (formatSkel a0).map fun s0 => "(? " ++ s0 ++ ")"
      | _ => none
    else if op = OpNonGreedy then
      match args with
      | a0 :: _ => (formatSkel a0).map fun s0 => "(non-greedy " ++ s0 ++ ")"
      | _ => none
    else
      some ("<op=" ++ toString op ++ ">")

def formatSkelParts : List STree → Option (List String)
  | [] => some []
  | a :: rest =>
    (formatSkel a).bind fun s => (formatSkelParts rest).map fun ss => s :: ss

end

/-! Helper lemmas. -/

set_option linter.unusedVariables false in
/-- Induction over `Expr` with the hypothesis available for every member
of the argument list. -/
theorem Expr.inductionOn {motive : Expr → Prop}
    (h : ∀ pos op args, (∀ a ∈ args, motive a) → motive (.mk pos op args)) :
    ∀ e, motive e
  | .mk pos op args => h pos op args (fun a ha => Expr.inductionOn h a)
termination_by e => sizeOf e
decreasing_by
  have := List.sizeOf_lt_of_mem ha
  simp only [Expr.mk.sizeOf_spec]
  omega

/-- The skeleton records exactly the extracted source text of each node. -/
theorem skel_text (re : Regexp) (a : Expr) : (skel re a).text = re.ExprString a := by
  cases a
  rfl

theorem formatParts_eq_skelParts (re : Regexp) (l : List Expr)
    (h : ∀ a ∈ l, formatExprSyntax re a = formatSkel (skel re a)) :
    formatPartsSyntax re l = formatSkelParts (skelList re l) := by
  induction l with
  | nil => rfl
  | cons a rest ih =>
    simp only [formatPartsSyntax, formatSkelParts, skelList,
      h a (List.mem_cons_self a rest), ih (fun b hb => h b (List.mem_cons_of_mem a hb))]

/-- The formatter factors through the skeleton: its output depends on the
input tree only through each node's tag, extracted text and argument
structure. -/
theorem format_eq_formatSkel (re : Regexp) :
    ∀ e, formatExprSyntax re e = formatSkel (skel re e) := by
  refine Expr.inductionOn ?_
  intro pos op args IH
  have hP := formatParts_eq_skelParts re args IH
  rcases args with _ | ⟨a0, _ | ⟨a1, rest⟩⟩ <;>
    simp [formatExprSyntax, formatSkel, skel, skelList, skel_text, hP, IH]

theorem spanChkList_mem (re : Regexp) {l : List Expr} (h : spanChkList re l = true) :
    ∀ a ∈ l, spanChk re a = true := by
  induction l with
  | nil => intro a ha; cases ha
  | cons b rest ih =>
    simp only [spanChkList, Bool.and_eq_true] at h
    intro a ha
    rcases List.mem_cons.mp ha with h1 | h1
    · subst h1; exact h.1
    · exact ih h.2 a h1

theorem arityChkList_mem {l : List Expr} (h : arityChkList l = true) :
    ∀ a ∈ l, arityChk a = true := by
  induction l with
  | nil => intro a ha; cases ha
  | cons b rest ih =>
    simp only [arityChkList, Bool.and_eq_true] at h
    intro a ha
    rcases List.mem_cons.mp ha with h1 | h1
    · subst h1; exact h.1
    · exact ih h.2 a h1

theorem ExprString_of_span (re : Regexp) (pos : Position) (op : Operation)
    (args : List Expr) (hb : pos.Begin ≤ pos.End) (he : pos.End ≤ re.Source.length) :
    re.ExprString (Expr.mk pos op args) =
      some (((re.Source.toList.drop pos.Begin).take (pos.End - pos.Begin)).asString) := by
  simp [Regexp.ExprString, sliceString, Expr.Begin, Expr.End, Expr.Pos, hb, he]

theorem ExprString_isSome (re : Regexp) (a : Expr) (h : spanChk re a = true) :
    ∃ s, re.ExprString a = some s := by
  cases a with
  | mk pos op args =>
    simp only [spanChk, Bool.and_eq_true, decide_eq_true_eq] at h
    exact ⟨_, ExprString_of_span re pos op args h.1.1 h.1.2⟩

theorem formatParts_total (re : Regexp) (l : List Expr)
    (h : ∀ a ∈ l, ∃ s, formatExprSyntax re a = some s) :
    ∃ ss, formatPartsSyntax re l = some ss := by
  induction l with
  | nil => exact ⟨[], rfl⟩
  | cons a rest ih =>
    obtain ⟨s, hs⟩ := h a (List.mem_cons_self a rest)
    obtain ⟨ss, hss⟩ := ih (fun b hb => h b (List.mem_cons_of_mem a hb))
    exact ⟨s :: ss, by simp [formatPartsSyntax, hs, hss]⟩

/-- Main totality lemma: on a tree whose spans are in range and whose
nodes meet their minimum arities, the formatter cannot hit an
out-of-range access. -/
theorem format_total_aux (re : Regexp) : ∀ e, spanChk re e = true → arityChk e = true →
    (formatExprSyntax re e).isSome = true := by
  refine Expr.inductionOn ?_
  intro pos op args IH hspan harity
  simp only [spanChk, arityChk, Bool.and_eq_true, decide_eq_true_eq] at hspan harity
  obtain ⟨⟨hb, he⟩, hspanl⟩ := hspan
  obtain ⟨hminar, harityl⟩ := harity
  have hmem : ∀ a ∈ args, ∃ s, formatExprSyntax re a = some s := fun a ha =>
    Option.isSome_iff_exists.mp
      (IH a ha (spanChkList_mem re hspanl a ha) (arityChkList_mem harityl a ha))
  have hroot : sliceString re.Source pos.Begin pos.End =
      some (((re.Source.toList.drop pos.Begin).take (pos.End - pos.Begin)).asString) := by
    simp [sliceString, hb, he]
  have hparts := formatParts_total re args hmem
  by_cases hop : op ∈ handledOps
  · simp only [handledOps, List.mem_cons, List.not_mem_nil, or_false] at hop
    rcases hop with h|h|h|h|h|h|h|h|h|h|h|h|h|h|h|h|h|h|h|h|h|h|h|h|h|h|h|h|h|h <;>
      subst h <;>
      rcases args with _ | ⟨a0, _ | ⟨a1, rest⟩⟩ <;>
      first
      | (refine absurd hminar ?_
         simp [minArity]
         done)
      | (simp [formatExprSyntax, Regexp.ExprString, Expr.Begin, Expr.End, Expr.Pos, hroot]
         done)
      | (obtain ⟨ps, hp⟩ := hparts
         simp [formatExprSyntax, hp]
         done)
      | (obtain ⟨s0, h0⟩ := hmem a0 (by simp)
         simp [formatExprSyntax, h0]
         done)
      | (obtain ⟨s0, h0⟩ := hmem a0 (by simp)
         obtain ⟨s1, h1⟩ := ExprString_isSome re a1 (spanChkList_mem re hspanl a1 (by simp))
         simp [formatExprSyntax, h0, h1]
         done)
      | (obtain ⟨s0, h0⟩ := hmem a0 (by simp)
         obtain ⟨s1, h1⟩ := hmem a1 (by simp)
         simp [formatExprSyntax, h0, h1]
         done)
  · simp [handledOps, not_or] at hop
    rcases args with _ | ⟨a0, _ | ⟨a1, rest⟩⟩ <;> simp [formatExprSyntax, hop]

/-- Parts formatting succeeds on exactly the claimed child renderings. -/
theorem formatParts_of_forall2 (re : Regexp) (l : List Expr) (ss : List String)
    (h : List.Forall₂ (fun e s => formatExprSyntax re e = some s) l ss) :
    formatPartsSyntax re l = some ss := by
  induction h with
  | nil => rfl
  | cons ha _ ih => simp [formatPartsSyntax, ha, ih]

/-- Two strings of different lengths differ; used to separate the debug
placeholder from a quantifier wrapper. -/
theorem placeholder_ne_possessive (s : String) :
    "<op=" ++ toString OpPossessive ++ ">" ≠ "(possessive " ++ s ++ ")" := by
  intro h
  have hlen := congrArg String.length h
  simp only [String.length_append] at hlen
  have h1 : ("<op=" : String).length = 4 := rfl
  have h2 : (toString OpPossessive).length = 1 := rfl
  have h3 : (">" : String).length = 1 := rfl
  have h4 : ("(possessive " : String).length = 12 := rfl
  have h5 : (")" : String).length = 1 := rfl
  omega

/-! Claim theorems. -/

/-- C1 (counterexample): formatting is not injective with respect to tree
shape plus leaf text.  Two well-formed trees over the source "a" that
differ in their root `Op` (`OpChar` vs `OpLiteral` with no argument)
format identically, and two well-formed `OpLiteral` trees over "ab" that
differ in their `Args` count format identically. -/
theorem format_injectivity_counterexample :
    (wfChk ⟨"a", .mk ⟨0,1⟩ OpChar []⟩ = true ∧
     wfChk ⟨"a", .mk ⟨0,1⟩ OpLiteral []⟩ = true ∧
     (Expr.mk ⟨0,1⟩ OpChar []).Op ≠ (Expr.mk ⟨0,1⟩ OpLiteral []).Op ∧
     FormatSyntax ⟨"a", .mk ⟨0,1⟩ OpChar []⟩ =
       FormatSyntax ⟨"a", .mk ⟨0,1⟩ OpLiteral []⟩) ∧
    (wfChk ⟨"ab", .mk ⟨0,2⟩ OpLiteral [.mk ⟨0,1⟩ OpChar [], .mk ⟨1,2⟩ OpChar []]⟩ = true ∧
     wfChk ⟨"ab", .mk ⟨0,2⟩ OpLiteral [.mk ⟨0,1⟩ OpChar []]⟩ = true ∧
     (Expr.mk ⟨0,2⟩ OpLiteral [.mk ⟨0,1⟩ OpChar [], .mk ⟨1,2⟩ OpChar []]).Args.length ≠
       (Expr.mk ⟨0,2⟩ OpLiteral [.mk ⟨0,1⟩ OpChar []]).Args.length ∧
     FormatSyntax ⟨"ab", .mk ⟨0,2⟩ OpLiteral [.mk ⟨0,1⟩ OpChar [], .mk ⟨1,2⟩ OpChar []]⟩ =
       FormatSyntax ⟨"ab", .mk ⟨0,2⟩ OpLiteral [.mk ⟨0,1⟩ OpChar []]⟩) := by
  decide

/-- C1 (amended): the direction that does hold — formatting is a function
of tree shape plus extracted leaf text: any two trees (over possibly
different sources) with equal skeletons format identically. -/
theorem format_determined_by_shape_and_text (re1 re2 : Regexp)
    (h : skel re1 re1.Expr = skel re2 re2.Expr) :
    FormatSyntax re1 = FormatSyntax re2 := by
  simp only [FormatSyntax, format_eq_formatSkel re1, format_eq_formatSkel re2, h]

/-- C1 witness: two regexps with different sources but equal skeletons
format the same. -/
theorem format_determined_by_shape_and_text_witness :
    skel ⟨"ab", .mk ⟨0,1⟩ OpChar []⟩ (Regexp.Expr ⟨"ab", .mk ⟨0,1⟩ OpChar []⟩) =
      skel ⟨"xa", .mk ⟨1,2⟩ OpChar []⟩ (Regexp.Expr ⟨"xa", .mk ⟨1,2⟩ OpChar []⟩) ∧
    FormatSyntax ⟨"ab", .mk ⟨0,1⟩ OpChar []⟩ = FormatSyntax ⟨"xa", .mk ⟨1,2⟩ OpChar []⟩ ∧
    FormatSyntax ⟨"ab", .mk ⟨0,1⟩ OpChar []⟩ = some "a" :=
  ⟨rfl, format_determined_by_shape_and_text ⟨"ab", .mk ⟨0,1⟩ OpChar []⟩
    ⟨"xa", .mk ⟨1,2⟩ OpChar []⟩ rfl, by decide⟩

/-- C2: a `Char`/`Literal` node renders its extracted source text, except
that the exact single-character texts "\x7b" and "\x7d" render as the
quoted forms `'\x7b'` and `'\x7d'`. -/
theorem format_char_literal_rendering (re : Regexp) (pos : Position) (op : Operation)
    (args : List Expr) (h : op = OpChar ∨ op = OpLiteral) :
    formatExprSyntax re (.mk pos op args) =
      (re.ExprString (Expr.mk pos op args)).map fun s =>
        if s = "\x7b" then "'\x7b'" else if s = "\x7d" then "'\x7d'" else s := by
  rcases h with h | h <;> subst h <;>
    rcases args with _ | ⟨a0, _ | ⟨a1, rest⟩⟩ <;>
    simp [formatExprSyntax]

/-- C2 witness: over the source "\x7b", a `Char` node spanning the brace
renders as `'\x7b'`. -/
theorem format_char_literal_rendering_witness :
    ((OpChar : Operation) = OpChar ∨ (OpChar : Operation) = OpLiteral) ∧
    formatExprSyntax ⟨"\x7b", .mk ⟨0,1⟩ OpChar []⟩ (.mk ⟨0,1⟩ OpChar []) =
      (Regexp.ExprString ⟨"\x7b", .mk ⟨0,1⟩ OpChar []⟩ (Expr.mk ⟨0,1⟩ OpChar [])).map
        (fun s => if s = "\x7b" then "'\x7b'" else if s = "\x7d" then "'\x7d'" else s) ∧
    formatExprSyntax ⟨"\x7b", .mk ⟨0,1⟩ OpChar []⟩ (.mk ⟨0,1⟩ OpChar []) = some "'\x7b'" :=
  ⟨Or.inl rfl,
   format_char_literal_rendering ⟨"\x7b", .mk ⟨0,1⟩ OpChar []⟩ ⟨0,1⟩ OpChar [] (Or.inl rfl),
   by decide⟩

/-- C3: every `Operation` tag outside the formatter's handled set —
including the sentinels `OpNone` and `OpNone2` — renders as the debug
placeholder embedding the raw numeric tag, and formatting returns
normally (`some`) on such a tag. -/
theorem format_unrecognized_tag_placeholder :
    (OpNone ∉ handledOps ∧ OpNone2 ∉ handledOps) ∧
    ∀ (re : Regexp) (pos : Position) (op : Operation) (args : List Expr),
      op ∉ handledOps →
      formatExprSyntax re (.mk pos op args) = some ("<op=" ++ toString op ++ ">") := by
  refine ⟨⟨by decide, by decide⟩, ?_⟩
  intro re pos op args h
  simp [handledOps, not_or] at h
  rcases args with _ | ⟨a0, _ | ⟨a1, rest⟩⟩ <;> simp [formatExprSyntax, h]

/-- C3 witness: the sentinel `OpNone2` (numeric value 32) is unhandled
and renders as the placeholder. -/
theorem format_unrecognized_tag_placeholder_witness :
    (OpNone2 ∉ handledOps) ∧
    formatExprSyntax ⟨"", .mk ⟨0,0⟩ OpNone2 []⟩ (.mk ⟨0,0⟩ OpNone2 []) = some "<op=32>" :=
  ⟨by decide,
   (format_unrecognized_tag_placeholder.2 ⟨"", .mk ⟨0,0⟩ OpNone2 []⟩ ⟨0,0⟩ OpNone2 []
     (by decide)).trans (by decide)⟩

/-- C4: `OpPossessive` is declared in the taxonomy but has no case in the
formatter's dispatch: every `Possessive` node renders as the numeric
placeholder (`<op=8>`), never as a quantifier wrapper
`(possessive <child>)`. -/
theorem format_possessive_placeholder :
    OpPossessive ∉ handledOps ∧
    ∀ (re : Regexp) (pos : Position) (args : List Expr),
      formatExprSyntax re (.mk pos OpPossessive args) =
        some ("<op=" ++ toString OpPossessive ++ ">") ∧
      ∀ s : String,
        formatExprSyntax re (.mk pos OpPossessive args) ≠ some ("(possessive " ++ s ++ ")") := by
  refine ⟨by decide, ?_⟩
  intro re pos args
  have heq : formatExprSyntax re (.mk pos OpPossessive args) =
      some ("<op=" ++ toString OpPossessive ++ ">") := by
    rcases args with _ | ⟨a0, _ | ⟨a1, rest⟩⟩ <;> simp [formatExprSyntax]
  refine ⟨heq, ?_⟩
  intro s h
  rw [heq] at h
  exact placeholder_ne_possessive s (Option.some.inj h)

/-- C4 witness: a concrete `Possessive` node renders as `<op=8>`. -/
theorem format_possessive_placeholder_witness :
    formatExprSyntax ⟨"x*+", .mk ⟨0,3⟩ OpPossessive [.mk ⟨0,2⟩ OpStar [.mk ⟨0,1⟩ OpChar []]]⟩
        (.mk ⟨0,3⟩ OpPossessive [.mk ⟨0,2⟩ OpStar [.mk ⟨0,1⟩ OpChar []]]) = some "<op=8>" ∧
    formatExprSyntax ⟨"x*+", .mk ⟨0,3⟩ OpPossessive [.mk ⟨0,2⟩ OpStar [.mk ⟨0,1⟩ OpChar []]]⟩
        (.mk ⟨0,3⟩ OpPossessive [.mk ⟨0,2⟩ OpStar [.mk ⟨0,1⟩ OpChar []]]) ≠
      some ("(possessive " ++ "(* x)" ++ ")") :=
  ⟨((format_possessive_placeholder.2 ⟨"x*+", .mk ⟨0,3⟩ OpPossessive
      [.mk ⟨0,2⟩ OpStar [.mk ⟨0,1⟩ OpChar []]]⟩ ⟨0,3⟩
      [.mk ⟨0,2⟩ OpStar [.mk ⟨0,1⟩ OpChar []]]).1).trans (by decide),
   (format_possessive_placeholder.2 ⟨"x*+", .mk ⟨0,3⟩ OpPossessive
      [.mk ⟨0,2⟩ OpStar [.mk ⟨0,1⟩ OpChar []]]⟩ ⟨0,3⟩
      [.mk ⟨0,2⟩ OpStar [.mk ⟨0,1⟩ OpChar []]]).2 "(* x)"⟩

/-- C5: on a tree whose every node has `Begin ≤ End ≤ length Source` and
meets its variant's documented minimum arity, `FormatSyntax` performs no
out-of-range access and returns a complete string; conversely, with all
spans in range, a failure is reachable only when some node's `Args`
length is below its variant's minimum arity. -/
theorem FormatSyntax_total_of_wellFormed :
    (∀ re : Regexp, spanChk re re.Expr = true → arityChk re.Expr = true →
      ∃ s, FormatSyntax re = some s) ∧
    (∀ re : Regexp, spanChk re re.Expr = true → FormatSyntax re = none →
      arityChk re.Expr = false) := by
  constructor
  · intro re h1 h2
    exact Option.isSome_iff_exists.mp (format_total_aux re re.Expr h1 h2)
  · intro re h1 hnone
    by_contra har
    have h2 : arityChk re.Expr = true := by
      cases h : arityChk re.Expr
      · exact absurd h har
      · rfl
    have := format_total_aux re re.Expr h1 h2
    rw [show FormatSyntax re = formatExprSyntax re re.Expr from rfl] at hnone
    rw [hnone] at this
    simp at this

/-- C5 witness: a concrete well-formed tree (alternation of two literals
over "a|bc") formats completely. -/
theorem FormatSyntax_total_of_wellFormed_witness :
    spanChk ⟨"a|bc", .mk ⟨0,4⟩ OpAlt [.mk ⟨0,1⟩ OpLiteral [], .mk ⟨2,4⟩ OpLiteral []]⟩
        (Regexp.Expr ⟨"a|bc", .mk ⟨0,4⟩ OpAlt [.mk ⟨0,1⟩ OpLiteral [], .mk ⟨2,4⟩ OpLiteral []]⟩) = true ∧
    arityChk (Regexp.Expr ⟨"a|bc", .mk ⟨0,4⟩ OpAlt [.mk ⟨0,1⟩ OpLiteral [], .mk ⟨2,4⟩ OpLiteral []]⟩) = true ∧
    (∃ s, FormatSyntax ⟨"a|bc", .mk ⟨0,4⟩ OpAlt [.mk ⟨0,1⟩ OpLiteral [], .mk ⟨2,4⟩ OpLiteral []]⟩ = some s) ∧
    FormatSyntax ⟨"a|bc", .mk ⟨0,4⟩ OpAlt [.mk ⟨0,1⟩ OpLiteral [], .mk ⟨2,4⟩ OpLiteral []]⟩ =
      some "(or a bc)" :=
  ⟨by decide, by decide,
   FormatSyntax_total_of_wellFormed.1
     ⟨"a|bc", .mk ⟨0,4⟩ OpAlt [.mk ⟨0,1⟩ OpLiteral [], .mk ⟨2,4⟩ OpLiteral []]⟩
     (by decide) (by decide),
   by decide⟩

/-- C6: text fidelity of the leaf-text variants: a `String`/`Escape*`/
`PosixClass` node renders exactly its extracted source text; a `Char`/
`Literal` node renders exactly its extracted text when that text is not
the single-character brace; a `Quote` node renders `(q ` + its extracted
text + `)`. -/
theorem format_leaf_text_fidelity :
    (∀ (re : Regexp) (pos : Position) (op : Operation) (args : List Expr),
      op = OpString ∨ op = OpEscape ∨ op = OpEscapeMeta ∨ op = OpEscapeOctal ∨
        op = OpEscapeHex ∨ op = OpEscapeHexFull ∨ op = OpEscapeUni ∨
        op = OpEscapeUniFull ∨ op = OpPosixClass →
      formatExprSyntax re (.mk pos op args) = re.ExprString (Expr.mk pos op args)) ∧
    (∀ (re : Regexp) (pos : Position) (op : Operation) (args : List Expr) (s : String),
      (op = OpChar ∨ op = OpLiteral) → re.ExprString (Expr.mk pos op args) = some s →
      s ≠ "\x7b" → s ≠ "\x7d" →
      formatExprSyntax re (.mk pos op args) = some s) ∧
    (∀ (re : Regexp) (pos : Position) (args : List Expr) (s : String),
      re.ExprString (Expr.mk pos OpQuote args) = some s →
      formatExprSyntax re (.mk pos OpQuote args) = some ("(q " ++ s ++ ")")) := by
  refine ⟨?_, ?_, ?_⟩
  · intro re pos op args h
    rcases h with h|h|h|h|h|h|h|h|h <;> subst h <;>
      rcases args with _ | ⟨a0, _ | ⟨a1, rest⟩⟩ <;> simp [formatExprSyntax]
  · intro re pos op args s h hs h1 h2
    rcases h with h | h <;> subst h <;>
      simp only [OpChar, OpLiteral] at hs <;>
      rcases args with _ | ⟨a0, _ | ⟨a1, rest⟩⟩ <;>
      simp [formatExprSyntax, hs, h1, h2]
  · intro re pos args s hs
    simp only [OpQuote] at hs
    rcases args with _ | ⟨a0, _ | ⟨a1, rest⟩⟩ <;> simp [formatExprSyntax, hs]

/-- C6 witness: an `OpEscape` node over the source "\\d" renders its text
"\\d" verbatim. -/
theorem format_leaf_text_fidelity_witness :
    ((OpEscape : Operation) = OpString ∨ (OpEscape : Operation) = OpEscape ∨
      (OpEscape : Operation) = OpEscapeMeta ∨ (OpEscape : Operation) = OpEscapeOctal ∨
      (OpEscape : Operation) = OpEscapeHex ∨ (OpEscape : Operation) = OpEscapeHexFull ∨
      (OpEscape : Operation) = OpEscapeUni ∨ (OpEscape : Operation) = OpEscapeUniFull ∨
      (OpEscape : Operation) = OpPosixClass) ∧
    formatExprSyntax ⟨"\\d", .mk ⟨0,2⟩ OpEscape []⟩ (.mk ⟨0,2⟩ OpEscape []) =
      Regexp.ExprString ⟨"\\d", .mk ⟨0,2⟩ OpEscape []⟩ (Expr.mk ⟨0,2⟩ OpEscape []) ∧
    formatExprSyntax ⟨"\\d", .mk ⟨0,2⟩ OpEscape []⟩ (.mk ⟨0,2⟩ OpEscape []) = some "\\d" :=
  ⟨Or.inr (Or.inl rfl),
   format_leaf_text_fidelity.1 ⟨"\\d", .mk ⟨0,2⟩ OpEscape []⟩ ⟨0,2⟩ OpEscape []
     (Or.inr (Or.inl rfl)),
   by decide⟩

/-- C7: the formatter is a pure, deterministic function of its input: two
results of `FormatSyntax` on the same `Regexp` value are always equal. -/
theorem FormatSyntax_deterministic (re : Regexp) (s1 s2 : Option String)
    (h1 : FormatSyntax re = s1) (h2 : FormatSyntax re = s2) : s1 = s2 :=
  h1 ▸ h2 ▸ rfl

/-- C7 witness: two runs agree on a concrete input. -/
theorem FormatSyntax_deterministic_witness :
    FormatSyntax ⟨"a", .mk ⟨0,1⟩ OpChar []⟩ = some "a" ∧
    (some "a" : Option String) = some "a" :=
  ⟨by decide,
   FormatSyntax_deterministic ⟨"a", .mk ⟨0,1⟩ OpChar []⟩ (some "a") (some "a")
     (by decide) (by decide)⟩

/-- C8: a `Concat` node with zero `Args` renders exactly "\x7b\x7d"; in
general a `Concat` node renders as "\x7b", the children's renderings
joined by single spaces, then "\x7d". -/
theorem format_concat_rendering :
    (∀ (re : Regexp) (pos : Position),
      formatExprSyntax re (.mk pos OpConcat []) = some "\x7b\x7d") ∧
    (∀ (re : Regexp) (pos : Position) (args : List Expr) (ss : List String),
      List.Forall₂ (fun e s => formatExprSyntax re e = some s) args ss →
      formatExprSyntax re (.mk pos OpConcat args) =
        some ("\x7b" ++ String.intercalate " " ss ++ "\x7d")) := by
  constructor
  · intro re pos
    rfl
  · intro re pos args ss h
    have hp := formatParts_of_forall2 re args ss h
    rcases args with _ | ⟨a0, _ | ⟨a1, rest⟩⟩ <;> simp [formatExprSyntax, hp]

/-- C8 witness: a `Concat` of the two `Char` children of "ab" renders as
"\x7ba b\x7d". -/
theorem format_concat_rendering_witness :
    List.Forall₂
      (fun e s => formatExprSyntax ⟨"ab", .mk ⟨0,2⟩ OpConcat [.mk ⟨0,1⟩ OpChar [], .mk ⟨1,2⟩ OpChar []]⟩ e = some s)
      [Expr.mk ⟨0,1⟩ OpChar [], Expr.mk ⟨1,2⟩ OpChar []] ["a", "b"] ∧
    formatExprSyntax ⟨"ab", .mk ⟨0,2⟩ OpConcat [.mk ⟨0,1⟩ OpChar [], .mk ⟨1,2⟩ OpChar []]⟩
        (.mk ⟨0,2⟩ OpConcat [.mk ⟨0,1⟩ OpChar [], .mk ⟨1,2⟩ OpChar []]) =
      some ("\x7b" ++ String.intercalate " " ["a", "b"] ++ "\x7d") ∧
    formatExprSyntax ⟨"ab", .mk ⟨0,2⟩ OpConcat [.mk ⟨0,1⟩ OpChar [], .mk ⟨1,2⟩ OpChar []]⟩
        (.mk ⟨0,2⟩ OpConcat [.mk ⟨0,1⟩ OpChar [], .mk ⟨1,2⟩ OpChar []]) = some "\x7ba b\x7d" :=
  ⟨List.Forall₂.cons (by decide) (List.Forall₂.cons (by decide) List.Forall₂.nil),
   format_concat_rendering.2 ⟨"ab", .mk ⟨0,2⟩ OpConcat [.mk ⟨0,1⟩ OpChar [], .mk ⟨1,2⟩ OpChar []]⟩
     ⟨0,2⟩ [.mk ⟨0,1⟩ OpChar [], .mk ⟨1,2⟩ OpChar []] ["a", "b"]
     (List.Forall₂.cons (by decide) (List.Forall₂.cons (by decide) List.Forall₂.nil)),
   by decide⟩

/-- C9: `LastArg` on a node with a non-empty `Args` returns the final
element; on a node with zero `Args` the access is out of bounds (`none`,
modelling the Go panic). -/
theorem LastArg_spec :
    (∀ (pos : Position) (op : Operation) (args : List Expr) (h : args ≠ []),
      Expr.LastArg (.mk pos op args) = some (args.getLast h)) ∧
    (∀ (pos : Position) (op : Operation), Expr.LastArg (.mk pos op []) = none) := by
  constructor
  · intro pos op args h
    simp [Expr.LastArg, Expr.Args, ← List.getLast?_eq_getElem?, List.getLast?_eq_getLast _ h]
  · intro pos op
    rfl

/-- C9 witness: the last argument of a two-argument node. -/
theorem LastArg_spec_witness :
    ([Expr.mk ⟨0,1⟩ OpChar [], Expr.mk ⟨1,2⟩ OpChar []] ≠ ([] : List Expr)) ∧
    Expr.LastArg (.mk ⟨0,2⟩ OpConcat [Expr.mk ⟨0,1⟩ OpChar [], Expr.mk ⟨1,2⟩ OpChar []]) =
      some ([Expr.mk ⟨0,1⟩ OpChar [], Expr.mk ⟨1,2⟩ OpChar []].getLast (by simp)) :=
  ⟨by simp,
   LastArg_spec.1 ⟨0,2⟩ OpConcat [Expr.mk ⟨0,1⟩ OpChar [], Expr.mk ⟨1,2⟩ OpChar []] (by simp)⟩

/-- C10: the quoted-brace special case does not apply to `String` nodes:
a `String` node whose extracted text is exactly "\x7b" or "\x7d" renders
that text verbatim, not as the quoted forms. -/
theorem format_string_brace_verbatim (re : Regexp) (pos : Position) (args : List Expr)
    (h : re.ExprString (Expr.mk pos OpString args) = some "\x7b" ∨
         re.ExprString (Expr.mk pos OpString args) = some "\x7d") :
    formatExprSyntax re (.mk pos OpString args) = re.ExprString (Expr.mk pos OpString args) ∧
    formatExprSyntax re (.mk pos OpString args) ≠ some "'\x7b'" ∧
    formatExprSyntax re (.mk pos OpString args) ≠ some "'\x7d'" := by
  have heq : formatExprSyntax re (.mk pos OpString args) =
      re.ExprString (Expr.mk pos OpString args) := by
    rcases args with _ | ⟨a0, _ | ⟨a1, rest⟩⟩ <;> simp [formatExprSyntax]
  refine ⟨heq, ?_, ?_⟩ <;> rcases h with h | h <;> rw [heq, h] <;> decide

/-- C10 witness: a `String` node spanning "\x7b" (e.g. a repeat-count or
flags argument) renders as the bare brace. -/
theorem format_string_brace_verbatim_witness :
    (Regexp.ExprString ⟨"\x7b", .mk ⟨0,1⟩ OpString []⟩ (Expr.mk ⟨0,1⟩ OpString []) = some "\x7b" ∨
     Regexp.ExprString ⟨"\x7b", .mk ⟨0,1⟩ OpString []⟩ (Expr.mk ⟨0,1⟩ OpString []) = some "\x7d") ∧
    formatExprSyntax ⟨"\x7b", .mk ⟨0,1⟩ OpString []⟩ (.mk ⟨0,1⟩ OpString []) =
      Regexp.ExprString ⟨"\x7b", .mk ⟨0,1⟩ OpString []⟩ (Expr.mk ⟨0,1⟩ OpString []) ∧
    formatExprSyntax ⟨"\x7b", .mk ⟨0,1⟩ OpString []⟩ (.mk ⟨0,1⟩ OpString []) = some "\x7b" :=
  ⟨Or.inl (by decide),
   (format_string_brace_verbatim ⟨"\x7b", .mk ⟨0,1⟩ OpString []⟩ ⟨0,1⟩ []
     (Or.inl (by decide))).1,
   by decide⟩
